import Mathlib

/-!
# Verification of the incremental log-indexing and message-retrieval engine

Shallow embedding of the core of the `claudecodeui` server:

* `src/server/db-indexer.js` — `processSessionFile` (incremental indexing);
* `src/server/database.js` — the SQLite-backed index store (`file_state`,
  `message_index`, `uuid_mapping`, `sessions` tables and their upsert
  semantics);
* `src/server/messages-cache.js` — the two-tier list/body message cache;
* `src/server/history-cache.js` — the per-session history-prompt cache.

JavaScript values are modelled as follows: strings are `String`, numbers
(byte counts, epoch-millisecond timestamps, `mtimeMs`) are `Nat`,
nullable / possibly-`undefined` fields are `Option _`, and JavaScript
truthiness of a string (falsy exactly on `null`/`undefined`/`""`) is
`jsTruthyStr`.  A JSONL line is modelled by its encoded byte length, its
blankness (`line.trim() === ""`), and its `JSON.parse` result
(`none` = malformed).  Maps (`new Map()`) are insertion-ordered
association lists, and SQLite tables are lists of rows.
-/

/-- JavaScript truthiness of a nullable string: falsy exactly when absent or empty. -/
def jsTruthyStr : Option String → Bool
  | some s => s ≠ ""
  | none => false

/-- JavaScript truthiness of a nullable number: falsy exactly when absent or `0`. -/
def jsTruthyNat : Option Nat → Bool
  | some n => n ≠ 0
  | none => false

/-- The JavaScript idiom `x || null` on a nullable string: an empty string collapses to null. -/
def jsStrOrNull : Option String → Option String
  | some s => if s = "" then none else some s
  | none => none

/-- A parsed transcript record (`JSON.parse` of one JSONL line).  Fields that the
indexer and caches read; absent JSON keys are `none`.  ISO timestamp strings are
abstracted by their epoch-millisecond value. -/
structure Entry where
  type : Option String := none
  summary : Option String := none
  sessionId : Option String := none
  uuid : Option String := none
  parentUuid : Option String := none
  id : Option String := none
  timestamp : Option Nat := none
  cwd : Option String := none
deriving DecidableEq

/-- One line of a JSONL file: its encoded byte length (without the trailing
newline), whether `line.trim()` is empty, and its parse result
(`none` when `JSON.parse` throws). -/
structure RawLine where
  byteLen : Nat
  blank : Bool
  parse : Option Entry
deriving DecidableEq

/-- Reading a file from a byte offset (`fs.createReadStream({start})` piped
through `readline`): at a line boundary the remaining lines are produced
verbatim; an offset inside a line first yields the malformed suffix of that
line (the bytes from the offset up to the next newline). -/
def streamFrom : List RawLine → Nat → List RawLine
  | ls, 0 => ls
  | [], _ => []
  | l :: ls, off =>
    if off ≥ l.byteLen + 1 then streamFrom ls (off - (l.byteLen + 1))
    else { byteLen := l.byteLen - off, blank := l.byteLen - off = 0, parse := none } :: ls

/-- The first line found when reading the file at byte offset `off`. -/
def lineAtOffset (file : List RawLine) (off : Nat) : Option RawLine :=
  (streamFrom file off).head?

/-- Pair each line with its starting byte offset (`byteOffset` accounting of the
indexer: each line advances the offset by its byte length plus one for the
newline, independent of parse success). -/
def withOffsets (off : Nat) : List RawLine → List (Nat × RawLine)
  | [] => []
  | l :: ls => (off, l) :: withOffsets (off + l.byteLen + 1) ls

/-! ## The durable index store (`src/server/database.js`) -/

/-- A row of the `file_state` table, as returned by `getFileState`'s SELECT
(`last_byte_offset, last_mtime, last_processed_at, file_size`);
`last_processed_at` is bookkeeping never read by the indexer and is omitted. -/
structure FileStateRow where
  last_byte_offset : Nat
  last_mtime : Nat
  file_size : Nat
deriving DecidableEq

/-- The `file_state` table has no `message_count` column and `getFileState`'s
SELECT does not produce one, so the JavaScript property read
`fileState.message_count` in `processSessionFile` always yields `undefined`. -/
def FileStateRow.message_count (_ : FileStateRow) : Option Nat := none

/-- A row of the `message_index` table (PRIMARY KEY `(session_id, message_number)`). -/
structure MessageIndexRow where
  sessionId : String
  messageNumber : Nat
  uuid : Option String
  type : Option String
  timestamp : Option Nat
  byteOffset : Nat
  filePath : String
deriving DecidableEq

/-- A row of the `uuid_mapping` table (PRIMARY KEY `uuid`). -/
structure UuidRow where
  uuid : String
  sessionId : String
  parentUuid : Option String
  type : Option String
deriving DecidableEq

/-- A row of the `sessions` table (PRIMARY KEY `id`; the id is the association key). -/
structure SessionRow where
  projectName : String
  summary : String
  messageCount : Nat
  lastActivity : Option Nat
  cwd : Option String
  provider : String
  isGrouped : Bool
  groupId : Option String
  filePath : Option String
deriving DecidableEq

/-- The durable store: the four tables the indexer touches. -/
structure Db where
  fileStates : List (String × FileStateRow)
  messageIndex : List MessageIndexRow
  uuidMappings : List (String × UuidRow)
  sessions : List (String × SessionRow)
deriving DecidableEq

def emptyDb : Db := ⟨[], [], [], []⟩

/-- Lookup in an association-list table by key. -/
def lookupAssoc {α : Type} (tbl : List (String × α)) (k : String) : Option α :=
  (tbl.find? (fun kv => kv.1 == k)).map Prod.snd

/-- `getFileState(filePath)`. -/
def getFileState (db : Db) (filePath : String) : Option FileStateRow :=
  lookupAssoc db.fileStates filePath

/-- `updateFileState(filePath, byteOffset, mtime, fileSize)`: INSERT OR REPLACE
keyed by `file_path`. -/
def updateFileState (db : Db) (filePath : String) (byteOffset mtime fileSize : Nat) : Db :=
  { db with fileStates :=
      db.fileStates.filter (fun kv => kv.1 != filePath) ++
        [(filePath, ⟨byteOffset, mtime, fileSize⟩)] }

/-- One INSERT OR REPLACE into `message_index`: any row with the same
`(session_id, message_number)` key is replaced. -/
def insertMessageIndexRow (tbl : List MessageIndexRow) (r : MessageIndexRow) :
    List MessageIndexRow :=
  tbl.filter (fun q => !(q.sessionId == r.sessionId && q.messageNumber == r.messageNumber)) ++ [r]

/-- `insertMessageIndexBatch(entries)`: the transactional batch insert. -/
def insertMessageIndexBatch (db : Db) (entries : List MessageIndexRow) : Db :=
  { db with messageIndex := entries.foldl insertMessageIndexRow db.messageIndex }

/-- `deleteSessionMessageIndexes(sessionId)`. -/
def deleteSessionMessageIndexes (db : Db) (sessionId : String) : Db :=
  { db with messageIndex := db.messageIndex.filter (fun r => !(r.sessionId == sessionId)) }

/-- The stored `message_index` row for a given session and message number. -/
def lookupMessageIndex (db : Db) (sessionId : String) (n : Nat) : Option MessageIndexRow :=
  db.messageIndex.find? (fun r => r.sessionId == sessionId && r.messageNumber == n)

/-- One INSERT OR REPLACE into `uuid_mapping`, keyed by `uuid`. -/
def insertUuidRow (tbl : List (String × UuidRow)) (r : UuidRow) : List (String × UuidRow) :=
  tbl.filter (fun kv => kv.1 != r.uuid) ++ [(r.uuid, r)]

/-- `insertUuidMappingBatch(mappings)`. -/
def insertUuidMappingBatch (db : Db) (mappings : List UuidRow) : Db :=
  { db with uuidMappings := mappings.foldl insertUuidRow db.uuidMappings }

/-- The argument record of `upsertSession` (the fields of the `session` object
`db-indexer.js` passes; the `.run` call applies the `|| default` coercions,
which are modelled inside `upsertSession`). -/
structure SessionUpsert where
  id : String
  projectName : String
  summary : Option String := none
  messageCount : Nat := 0
  lastActivity : Option Nat := none
  cwd : Option String := none
  provider : Option String := none
  isGrouped : Bool := false
  groupId : Option String := none
  filePath : Option String := none
deriving DecidableEq

/-- The value SQLite receives for the `summary` column: `session.summary || 'New Session'`. -/
def SessionUpsert.excludedSummary (s : SessionUpsert) : String :=
  match s.summary with
  | some str => if str = "" then "New Session" else str
  | none => "New Session"

/-- `upsertSession(session)`: INSERT with ON CONFLICT(id) DO UPDATE.  On
conflict only `summary`, `message_count`, `last_activity`, `cwd`, `file_path`
and `updated_at` are updated; SQL comparisons against NULL are not true, so a
NULL `last_activity` (stored or incoming) leaves the stored value in place. -/
def upsertSession (db : Db) (s : SessionUpsert) : Db :=
  let excludedSummary := s.excludedSummary
  let excludedCwd := jsStrOrNull s.cwd
  let excludedFilePath := jsStrOrNull s.filePath
  match lookupAssoc db.sessions s.id with
  | none =>
      { db with sessions := db.sessions ++
          [(s.id,
            { projectName := s.projectName
              summary := excludedSummary
              messageCount := s.messageCount
              lastActivity := s.lastActivity
              cwd := excludedCwd
              provider := (jsStrOrNull s.provider).getD "claude"
              isGrouped := s.isGrouped
              groupId := jsStrOrNull s.groupId
              filePath := excludedFilePath })] }
  | some old =>
      let updated : SessionRow :=
        { old with
          summary := if excludedSummary ≠ "New Session" then excludedSummary else old.summary
          messageCount :=
            if s.messageCount > old.messageCount then s.messageCount else old.messageCount
          lastActivity :=
            match s.lastActivity, old.lastActivity with
            | some a, some b => if a > b then some a else some b
            | _, _ => old.lastActivity
          cwd := match excludedCwd with | some c => some c | none => old.cwd
          filePath := match excludedFilePath with | some f => some f | none => old.filePath }
      { db with sessions :=
          db.sessions.map (fun kv => if kv.1 == s.id then (s.id, updated) else kv) }

/-- The stored `sessions` row for a given id. -/
def lookupSession (db : Db) (id : String) : Option SessionRow :=
  lookupAssoc db.sessions id

/-! ## The incremental file indexer (`src/server/db-indexer.js`) -/

/-- `fsPromises.stat` result: the two fields `processSessionFile` reads. -/
structure Stats where
  size : Nat
  mtimeMs : Nat
deriving DecidableEq

/-- The structured result of `processSessionFile`. -/
structure IndexResult where
  skipped : Bool
  reason : Option String := none
  errorMsg : Option String := none
  sessionId : Option String := none
  messagesIndexed : Nat := 0
  isIncremental : Bool := false
  totalMessages : Nat := 0
  cwd : Option String := none
deriving DecidableEq

/-- `path.basename`: the last `/`-separated component (computed over the
character list so that it reduces by evaluation). -/
def basename (p : String) : String :=
  ⟨(p.data.reverse.takeWhile (fun c => c ≠ '/')).reverse⟩

/-- `path.basename(filePath, ".jsonl")`: the session id derived from the file
name — the base name with a trailing `.jsonl` extension removed. -/
def sessionIdOfPath (filePath : String) : String :=
  let b := (basename filePath).data
  if (".jsonl".data).isSuffixOf b then ⟨b.take (b.length - 6)⟩ else ⟨b⟩

/-- The accumulator of `processSessionFile`'s line loop. -/
structure ScanState where
  byteOffset : Nat
  messageNumber : Nat
  lastActivity : Option Nat
  summary : String
  cwd : Option String
  messageIndexes : List MessageIndexRow
  uuidMappings : List UuidRow
deriving DecidableEq

def initScanState (startOffset startNumber : Nat) : ScanState :=
  { byteOffset := startOffset
    messageNumber := startNumber
    lastActivity := none
    summary := "New Session"
    cwd := none
    messageIndexes := []
    uuidMappings := [] }

/-- The running last-activity tracker: `if (entry.timestamp) { const ts = new
Date(entry.timestamp); if (!lastActivity || ts > lastActivity) lastActivity = ts }`. -/
def updateLastActivity (la ts : Option Nat) : Option Nat :=
  match ts with
  | none => la
  | some t =>
    match la with
    | none => some t
    | some l => if t > l then some t else some l

/-- The body of `for await (const line of rl)` in `processSessionFile`: blank
lines and malformed lines are skipped but still advance the byte offset;
summary records update the running summary; records whose `sessionId` matches
the derived id are numbered and indexed (with a uuid mapping when a uuid is
present), and update the running last-activity and first-cwd trackers. -/
def processLine (sessionId filePath : String) (st : ScanState) (l : RawLine) : ScanState :=
  let st1 :=
    if !l.blank then
      match l.parse with
      | some entry =>
        let stA :=
          if entry.type == some "summary" && jsTruthyStr entry.summary then
            { st with summary := entry.summary.getD st.summary }
          else st
        if entry.sessionId == some sessionId then
          { stA with
            messageNumber := stA.messageNumber + 1
            messageIndexes := stA.messageIndexes ++
              [{ sessionId := sessionId
                 messageNumber := stA.messageNumber + 1
                 uuid := jsStrOrNull entry.uuid
                 type := jsStrOrNull entry.type
                 timestamp := entry.timestamp
                 byteOffset := st.byteOffset
                 filePath := filePath }]
            uuidMappings := stA.uuidMappings ++
              (if jsTruthyStr entry.uuid then
                [{ uuid := entry.uuid.getD ""
                   sessionId := sessionId
                   parentUuid := jsStrOrNull entry.parentUuid
                   type := jsStrOrNull entry.type }]
              else [])
            lastActivity := updateLastActivity stA.lastActivity entry.timestamp
            cwd := if jsTruthyStr entry.cwd && stA.cwd.isNone then entry.cwd else stA.cwd }
        else stA
      | none => st
    else st
  { st1 with byteOffset := st.byteOffset + l.byteLen + 1 }

/-- The whole line loop. -/
def scanLines (sessionId filePath : String) (ls : List RawLine) (st : ScanState) : ScanState :=
  ls.foldl (processLine sessionId filePath) st

/-- The incremental-eligibility test of `processSessionFile`:
`fileState && fileState.file_size && stats.size > fileState.file_size &&
fileState.last_mtime < stats.mtimeMs` (note that a recorded `file_size` of 0 is
falsy in JavaScript and therefore blocks incremental processing). -/
def incrementalEligible (fileState : Option FileStateRow) (stats : Stats) : Bool :=
  match fileState with
  | some fs =>
      fs.file_size != 0 && decide (stats.size > fs.file_size) &&
        decide (fs.last_mtime < stats.mtimeMs)
  | none => false

/-- `processSessionFile(filePath, projectName)`.  The filesystem is passed in as
the `stat` result (`none` when `stat` throws, which the `catch` turns into
`skipped: "error"`) and the file's current lines.  Returns the structured
result together with the updated store. -/
def processSessionFile (filePath projectName : String) (stat : Option Stats)
    (file : List RawLine) (db : Db) : IndexResult × Db :=
  match stat with
  | none => ({ skipped := true, reason := some "error", errorMsg := some "stat failed" }, db)
  | some stats =>
    let fileState := getFileState db filePath
    if (match fileState with
        | some fs => fs.last_mtime == stats.mtimeMs
        | none => false) then
      ({ skipped := true, reason := some "unchanged" }, db)
    else
      let isIncremental : Bool := incrementalEligible fileState stats
      let startOffset :=
        if isIncremental then
          match fileState with
          | some fs => fs.last_byte_offset
          | none => 0
        else 0
      let sessionId := sessionIdOfPath filePath
      let db1 := if isIncremental then db else deleteSessionMessageIndexes db sessionId
      let startNumber :=
        if isIncremental then
          match fileState with
          | some fs => fs.message_count.getD 0
          | none => 0
        else 0
      let st := scanLines sessionId filePath (streamFrom file startOffset)
        (initScanState startOffset startNumber)
      let db2 :=
        if st.messageIndexes.length > 0 then insertMessageIndexBatch db1 st.messageIndexes else db1
      let db3 :=
        if st.uuidMappings.length > 0 then insertUuidMappingBatch db2 st.uuidMappings else db2
      let db4 := upsertSession db3
        { id := sessionId
          projectName := projectName
          summary := some st.summary
          messageCount := st.messageNumber
          lastActivity := st.lastActivity
          cwd := st.cwd
          provider := some "claude"
          isGrouped := false
          groupId := none
          filePath := some filePath }
      let db5 := updateFileState db4 filePath st.byteOffset stats.mtimeMs stats.size
      ({ skipped := false
         sessionId := some sessionId
         messagesIndexed := st.messageIndexes.length
         isIncremental := isIncremental
         totalMessages := st.messageNumber
         cwd := st.cwd }, db5)

/-! ## Concrete indexing scenarios -/

/-- A well-formed transcript record for session `"s"` with uuid `"u1"`. -/
def incrE1 : Entry := { sessionId := some "s", uuid := some "u1", timestamp := some 100 }

def incrE2 : Entry := { sessionId := some "s", uuid := some "u2", timestamp := some 200 }

def incrE3 : Entry := { sessionId := some "s", uuid := some "u3", timestamp := some 300 }

/-- A transcript file with two well-formed 9-byte lines for session `"s"`. -/
def incrFile1 : List RawLine := [⟨9, false, some incrE1⟩, ⟨9, false, some incrE2⟩]

/-- The same file after one more well-formed line is appended. -/
def incrFile2 : List RawLine :=
  [⟨9, false, some incrE1⟩, ⟨9, false, some incrE2⟩, ⟨9, false, some incrE3⟩]

/-- First indexing pass: fresh store, file of 20 bytes, mtime 100. -/
def incrPass1 : IndexResult × Db :=
  processSessionFile "/p/s.jsonl" "p" (some ⟨20, 100⟩) incrFile1 emptyDb

/-- Second indexing pass after the append: 30 bytes, mtime 200 — eligible for
incremental processing. -/
def incrPass2 : IndexResult × Db :=
  processSessionFile "/p/s.jsonl" "p" (some ⟨30, 200⟩) incrFile2 incrPass1.2

/-! ## Claim theorems: indexer -/

/-- **C1** (code bug).  A transcript file indexed once (2 messages) and then
appended with one well-formed line, mtime and size both increasing: the second
`processSessionFile` call does report `isIncremental: true` and indexes exactly
the one new line, but because `fileState.message_count` reads a column that the
`file_state` table does not have, numbering restarts at 1 instead of continuing
at `oldTotal + 1 = 3`: no entry numbered 3 exists afterwards, the appended
line's entry is stored under number 1 (replacing the first message's row via
INSERT OR REPLACE), and the table still holds 2 rows instead of 3. -/
theorem processSessionFile_incremental_renumbers_from_one :
    incrPass1.1.totalMessages = 2 ∧
    incrPass1.1.messagesIndexed = 2 ∧
    incrPass2.1.isIncremental = true ∧
    incrPass2.1.messagesIndexed = 1 ∧
    lookupMessageIndex incrPass2.2 "s" 3 = none ∧
    (lookupMessageIndex incrPass2.2 "s" 1).map (fun r => r.byteOffset) = some 20 ∧
    incrPass2.2.messageIndex.length = 2 := by
  decide

/-- **C4**: if a checkpoint exists for the file and its recorded mtime equals
the file's current mtime, `processSessionFile` returns
`{skipped: true, reason: "unchanged"}` and leaves the store untouched —
zero new `MessageIndexEntry` rows and no writes at all. -/
theorem processSessionFile_unchanged_skips
    (filePath projectName : String) (stats : Stats) (file : List RawLine) (db : Db)
    (fs : FileStateRow) (hfs : getFileState db filePath = some fs)
    (hmt : fs.last_mtime = stats.mtimeMs) :
    processSessionFile filePath projectName (some stats) file db =
      ({ skipped := true, reason := some "unchanged" }, db) := by
  unfold processSessionFile
  rw [hfs]
  simp [hmt]

/-- A store holding a checkpoint for `"f"` with recorded mtime 5. -/
def unchangedDb : Db := ⟨[("f", ⟨7, 5, 10⟩)], [], [], []⟩

/-- Witness for the **C4** theorem at a concrete store and stat result. -/
theorem processSessionFile_unchanged_skips_witness :
    processSessionFile "f" "p" (some ⟨12, 5⟩) [⟨3, false, none⟩] unchangedDb =
      ({ skipped := true, reason := some "unchanged" }, unchangedDb) :=
  processSessionFile_unchanged_skips "f" "p" ⟨12, 5⟩ [⟨3, false, none⟩] unchangedDb
    ⟨7, 5, 10⟩ (by decide) rfl

/-- Any row surviving a batch of INSERT OR REPLACE operations was already in the
table or is one of the batch entries. -/
theorem mem_foldl_insertMessageIndexRow {es : List MessageIndexRow} {tbl : List MessageIndexRow}
    {r : MessageIndexRow} (h : r ∈ es.foldl insertMessageIndexRow tbl) : r ∈ tbl ∨ r ∈ es := by
  induction es generalizing tbl with
  | nil => exact Or.inl h
  | cons e es ih =>
    rcases ih h with h1 | h1
    · rcases List.mem_append.mp h1 with h2 | h2
      · exact Or.inl (List.mem_of_mem_filter h2)
      · simp only [List.mem_singleton] at h2
        exact Or.inr (h2 ▸ List.mem_cons_self e es)
    · exact Or.inr (List.mem_cons_of_mem _ h1)

/-- After `deleteSessionMessageIndexes sid`, no remaining row belongs to `sid`. -/
theorem sessionId_ne_of_mem_delete {db : Db} {sid : String} {r : MessageIndexRow}
    (h : r ∈ (deleteSessionMessageIndexes db sid).messageIndex) : r.sessionId ≠ sid := by
  simp only [deleteSessionMessageIndexes, List.mem_filter, Bool.not_eq_true', beq_eq_false_iff_ne,
    ne_eq] at h
  exact h.2

theorem upsertSession_messageIndex (db : Db) (s : SessionUpsert) :
    (upsertSession db s).messageIndex = db.messageIndex := by
  unfold upsertSession
  cases lookupAssoc db.sessions s.id <;> rfl

theorem updateFileState_messageIndex (db : Db) (p : String) (a b c : Nat) :
    (updateFileState db p a b c).messageIndex = db.messageIndex := rfl

theorem insertUuidMappingBatch_messageIndex (db : Db) (ms : List UuidRow) :
    (insertUuidMappingBatch db ms).messageIndex = db.messageIndex := rfl

theorem insertMessageIndexBatch_messageIndex (db : Db) (es : List MessageIndexRow) :
    (insertMessageIndexBatch db es).messageIndex = es.foldl insertMessageIndexRow db.messageIndex :=
  rfl

/-- The incremental-eligibility boolean, spelled out. -/
theorem incrementalEligible_iff (o : Option FileStateRow) (stats : Stats) :
    incrementalEligible o stats = true ↔
      ∃ fs, o = some fs ∧ fs.file_size ≠ 0 ∧ fs.file_size < stats.size ∧
        fs.last_mtime < stats.mtimeMs := by
  cases o with
  | none => simp [incrementalEligible]
  | some fs =>
    simp only [incrementalEligible, Bool.and_eq_true, bne_iff_ne, ne_eq, decide_eq_true_eq,
      Option.some.injEq]
    constructor
    · rintro ⟨⟨h1, h2⟩, h3⟩
      exact ⟨fs, rfl, h1, h2, h3⟩
    · rintro ⟨fs', hfs', h1, h2, h3⟩
      cases hfs'
      exact ⟨⟨h1, h2⟩, h3⟩

/-- A store whose checkpoint for `"/p/s.jsonl"` records size 0 and mtime 100. -/
def zeroSizeDb : Db := ⟨[("/p/s.jsonl", ⟨0, 100, 0⟩)], [], [], []⟩

/-- **C3 counterexample**: a checkpoint exists, its recorded size 0 is smaller
than the current size 10 and its recorded mtime 100 is older than the current
mtime 200, and the call is not skipped — yet `processSessionFile` performs a
full reindex (`isIncremental = false`), because the code additionally requires
the recorded `file_size` to be truthy (non-zero). -/
theorem checkpoint_zero_size_not_incremental :
    getFileState zeroSizeDb "/p/s.jsonl" = some ⟨0, 100, 0⟩ ∧
    (0 : Nat) < 10 ∧ (100 : Nat) < 200 ∧
    (processSessionFile "/p/s.jsonl" "p" (some ⟨10, 200⟩)
        [⟨9, false, some incrE1⟩] zeroSizeDb).1.skipped = false ∧
    (processSessionFile "/p/s.jsonl" "p" (some ⟨10, 200⟩)
        [⟨9, false, some incrE1⟩] zeroSizeDb).1.isIncremental = false := by
  decide

/-- **C3** (amended).  For any non-skipped call, `processSessionFile` performs
an incremental append iff a checkpoint exists whose recorded size is non-zero
and smaller than the current size and whose recorded mtime is strictly older
than the current mtime; in every other non-skipped case it performs a full
reindex: every surviving `message_index` row of the derived session comes from
the fresh scan started at offset 0 (all previously stored rows for the session
are purged first). -/
theorem processSessionFile_incremental_iff
    (filePath projectName : String) (stats : Stats) (file : List RawLine) (db : Db)
    (hns : ∀ fs, getFileState db filePath = some fs → fs.last_mtime ≠ stats.mtimeMs) :
    ((processSessionFile filePath projectName (some stats) file db).1.isIncremental = true ↔
      ∃ fs, getFileState db filePath = some fs ∧ fs.file_size ≠ 0 ∧
        fs.file_size < stats.size ∧ fs.last_mtime < stats.mtimeMs) ∧
    ((processSessionFile filePath projectName (some stats) file db).1.isIncremental = false →
      ∀ r ∈ (processSessionFile filePath projectName (some stats) file db).2.messageIndex,
        r.sessionId = sessionIdOfPath filePath →
        r ∈ (scanLines (sessionIdOfPath filePath) filePath (streamFrom file 0)
              (initScanState 0 0)).messageIndexes) := by
  have hcond : (match getFileState db filePath with
      | some fs => fs.last_mtime == stats.mtimeMs
      | none => false) = false := by
    cases h : getFileState db filePath with
    | none => rfl
    | some fs => simpa using hns fs h
  cases hinc : incrementalEligible (getFileState db filePath) stats with
  | true =>
    constructor
    · simp only [processSessionFile, hcond, hinc]
      simpa [← incrementalEligible_iff] using hinc
    · intro hfalse
      exfalso
      simp only [processSessionFile, hcond, hinc] at hfalse
      simp at hfalse
  | false =>
    constructor
    · simp only [processSessionFile, hcond, hinc]
      simpa [← incrementalEligible_iff] using hinc
    · intro _ r hr hsid
      simp only [processSessionFile, hcond, hinc] at hr
      simp only [Bool.false_eq_true, if_false] at hr
      rw [updateFileState_messageIndex, upsertSession_messageIndex] at hr
      simp only [apply_ite Db.messageIndex, insertUuidMappingBatch_messageIndex,
        insertMessageIndexBatch_messageIndex, ite_self] at hr
      split at hr
      · rcases mem_foldl_insertMessageIndexRow hr with h1 | h1
        · exact absurd hsid (sessionId_ne_of_mem_delete h1)
        · exact h1
      · exact absurd hsid (sessionId_ne_of_mem_delete hr)

/-- Witness for the **C3** theorem at the zero-size-checkpoint store. -/
theorem processSessionFile_incremental_iff_witness :
    ((processSessionFile "/p/s.jsonl" "p" (some ⟨10, 200⟩)
        [⟨9, false, some incrE1⟩] zeroSizeDb).1.isIncremental = true ↔
      ∃ fs, getFileState zeroSizeDb "/p/s.jsonl" = some fs ∧ fs.file_size ≠ 0 ∧
        fs.file_size < (10 : Nat) ∧ fs.last_mtime < (200 : Nat)) ∧
    ((processSessionFile "/p/s.jsonl" "p" (some ⟨10, 200⟩)
        [⟨9, false, some incrE1⟩] zeroSizeDb).1.isIncremental = false →
      ∀ r ∈ (processSessionFile "/p/s.jsonl" "p" (some ⟨10, 200⟩)
          [⟨9, false, some incrE1⟩] zeroSizeDb).2.messageIndex,
        r.sessionId = sessionIdOfPath "/p/s.jsonl" →
        r ∈ (scanLines (sessionIdOfPath "/p/s.jsonl") "/p/s.jsonl"
              (streamFrom [⟨9, false, some incrE1⟩] 0)
              (initScanState 0 0)).messageIndexes) :=
  processSessionFile_incremental_iff "/p/s.jsonl" "p" ⟨10, 200⟩
    [⟨9, false, some incrE1⟩] zeroSizeDb
    (by
      intro fs h
      have h0 : getFileState zeroSizeDb "/p/s.jsonl" = some (⟨0, 100, 0⟩ : FileStateRow) := by
        decide
      rw [h0] at h
      injection h with h1
      rw [← h1]
      decide)

/-- An upsert that stores cwd `/a` for a fresh session `"s"`. -/
def cwdUpsert1 : SessionUpsert :=
  { id := "s", projectName := "p", summary := some "hello", messageCount := 1,
    lastActivity := some 10, cwd := some "/a" }

/-- A later upsert for the same session carrying a different non-null cwd `/b`. -/
def cwdUpsert2 : SessionUpsert :=
  { id := "s", projectName := "p", summary := some "hello", messageCount := 2,
    lastActivity := some 20, cwd := some "/b" }

def cwdDb0 : Db := upsertSession emptyDb cwdUpsert1

def cwdDb1 : Db := upsertSession cwdDb0 cwdUpsert2

/-- The session row stored by `cwdUpsert1` on an empty store. -/
def cwdOldRow : SessionRow :=
  { projectName := "p", summary := "hello", messageCount := 1, lastActivity := some 10,
    cwd := some "/a", provider := "claude", isGrouped := false, groupId := none,
    filePath := none }

/-- **C5 counterexample**: the stored cwd of session `"s"` is `/a`, and a
subsequent upsert carrying cwd `/b` replaces it — `cwd = COALESCE(excluded.cwd,
cwd)` prefers the incoming value, so a non-null stored cwd is *not* kept. -/
theorem upsertSession_cwd_replaced :
    (lookupSession cwdDb0 "s").map (fun r => r.cwd) = some (some "/a") ∧
    (lookupSession cwdDb1 "s").map (fun r => r.cwd) = some (some "/b") := by
  decide

/-- Updating the row stored under key `k` in an association list. -/
theorem lookupAssoc_map_update {α : Type} {m : List (String × α)} {k : String} {old : α}
    (upd : α) (h : lookupAssoc m k = some old) :
    lookupAssoc (m.map (fun kv => if kv.1 == k then (k, upd) else kv)) k = some upd := by
  induction m with
  | nil => simp [lookupAssoc] at h
  | cons kv m ih =>
    by_cases hk : kv.1 = k
    · have hk2 : (kv.1 == k) = true := by simpa using hk
      simp only [List.map_cons, hk2, if_true]
      unfold lookupAssoc
      rw [List.find?_cons_of_pos _ (by simp)]
      rfl
    · have hk2 : (kv.1 == k) = false := by simpa using hk
      have h' : lookupAssoc m k = some old := by
        unfold lookupAssoc at h ⊢
        rwa [List.find?_cons_of_neg _ (by simp [hk2])] at h
      have hres := ih h'
      simp only [List.map_cons, hk2, Bool.false_eq_true, if_false]
      unfold lookupAssoc at hres ⊢
      rwa [List.find?_cons_of_neg _ (by simp [hk2])]

/-- **C5** (amended).  For an existing session row, an `upsertSession` call
never decreases the stored `message_count` or `last_activity`; the summary is
kept whenever the incoming summary is the placeholder `'New Session'`; and
`cwd`/`file_path` follow `COALESCE(excluded, stored)`: an incoming non-null
value *overwrites* the stored one, while a null incoming value keeps it (so
the stored value never reverts to null, but it is not first-write-wins). -/
theorem upsertSession_monotone
    (db : Db) (s : SessionUpsert) (old : SessionRow)
    (hold : lookupSession db s.id = some old) :
    ∃ r, lookupSession (upsertSession db s) s.id = some r ∧
      old.messageCount ≤ r.messageCount ∧
      (∀ b, old.lastActivity = some b → ∃ c, r.lastActivity = some c ∧ b ≤ c) ∧
      (s.excludedSummary = "New Session" → r.summary = old.summary) ∧
      r.cwd = (match jsStrOrNull s.cwd with | some c => some c | none => old.cwd) ∧
      r.filePath =
        (match jsStrOrNull s.filePath with | some f => some f | none => old.filePath) := by
  have hold' : lookupAssoc db.sessions s.id = some old := hold
  have hlook : lookupSession (upsertSession db s) s.id = some
      { old with
        summary := if s.excludedSummary ≠ "New Session" then s.excludedSummary else old.summary
        messageCount :=
          if s.messageCount > old.messageCount then s.messageCount else old.messageCount
        lastActivity :=
          match s.lastActivity, old.lastActivity with
          | some a, some b => if a > b then some a else some b
          | _, _ => old.lastActivity
        cwd := match jsStrOrNull s.cwd with | some c => some c | none => old.cwd
        filePath :=
          match jsStrOrNull s.filePath with | some f => some f | none => old.filePath } := by
    show lookupAssoc (upsertSession db s).sessions s.id = _
    unfold upsertSession
    rw [hold']
    exact lookupAssoc_map_update _ hold'
  refine ⟨_, hlook, ?_, ?_, ?_, rfl, rfl⟩
  · dsimp only
    split <;> omega
  · intro b hb
    dsimp only
    rw [hb]
    cases s.lastActivity with
    | none => exact ⟨b, rfl, le_refl b⟩
    | some a =>
      by_cases hab : a > b
      · exact ⟨a, by simp [hab], le_of_lt hab⟩
      · exact ⟨b, by simp [hab], le_refl b⟩
  · intro hsum
    dsimp only
    simp [hsum]

/-- Witness for the **C5** theorem at the concrete two-upsert scenario. -/
theorem upsertSession_monotone_witness :
    ∃ r, lookupSession (upsertSession cwdDb0 cwdUpsert2) cwdUpsert2.id = some r ∧
      cwdOldRow.messageCount ≤ r.messageCount ∧
      (∀ b, cwdOldRow.lastActivity = some b → ∃ c, r.lastActivity = some c ∧ b ≤ c) ∧
      (cwdUpsert2.excludedSummary = "New Session" → r.summary = cwdOldRow.summary) ∧
      r.cwd = (match jsStrOrNull cwdUpsert2.cwd with | some c => some c | none => cwdOldRow.cwd) ∧
      r.filePath = (match jsStrOrNull cwdUpsert2.filePath with
        | some f => some f
        | none => cwdOldRow.filePath) :=
  upsertSession_monotone cwdDb0 cwdUpsert2 cwdOldRow (by decide)

/-! ## Offset accounting (scan characterization) -/

/-- A line that produces a `MessageIndexRow`: non-blank, parses, and its
`sessionId` equals the derived session id. -/
def isIndexedLine (sid : String) (l : RawLine) : Bool :=
  !l.blank && (match l.parse with
    | some e => e.sessionId == some sid
    | none => false)

/-- The index row the scan loop builds for an indexed line at byte offset `p.1`. -/
def rowOfLine (sid fp : String) (n : Nat) (p : Nat × RawLine) : MessageIndexRow :=
  let e := (p.2.parse).getD {}
  { sessionId := sid
    messageNumber := n
    uuid := jsStrOrNull e.uuid
    type := jsStrOrNull e.type
    timestamp := e.timestamp
    byteOffset := p.1
    filePath := fp }

/-- Specification of the rows produced by the scan loop, starting at byte
offset `off` with `n` messages already numbered. -/
def scanRowsSpec (sid fp : String) : Nat → Nat → List RawLine → List MessageIndexRow
  | _, _, [] => []
  | off, n, l :: ls =>
    if isIndexedLine sid l then
      rowOfLine sid fp (n + 1) (off, l) :: scanRowsSpec sid fp (off + l.byteLen + 1) (n + 1) ls
    else scanRowsSpec sid fp (off + l.byteLen + 1) n ls

theorem processLine_byteOffset (sid fp : String) (st : ScanState) (l : RawLine) :
    (processLine sid fp st l).byteOffset = st.byteOffset + l.byteLen + 1 := by
  unfold processLine
  rfl

theorem processLine_indexed (sid fp : String) (st : ScanState) (l : RawLine)
    (h : isIndexedLine sid l = true) :
    (processLine sid fp st l).messageIndexes =
      st.messageIndexes ++ [rowOfLine sid fp (st.messageNumber + 1) (st.byteOffset, l)] ∧
    (processLine sid fp st l).messageNumber = st.messageNumber + 1 := by
  unfold isIndexedLine at h
  cases hb : l.blank with
  | true => simp [hb] at h
  | false =>
    cases hp : l.parse with
    | none => simp [hb, hp] at h
    | some e =>
      simp only [hb, hp, Bool.not_false, Bool.true_and] at h
      unfold processLine
      simp only [hb, hp, Bool.not_false, if_true, h, rowOfLine, Option.getD_some]
      by_cases hs : (e.type == some "summary" && jsTruthyStr e.summary) = true <;>
        simp [hs]

theorem processLine_not_indexed (sid fp : String) (st : ScanState) (l : RawLine)
    (h : isIndexedLine sid l = false) :
    (processLine sid fp st l).messageIndexes = st.messageIndexes ∧
    (processLine sid fp st l).messageNumber = st.messageNumber := by
  unfold isIndexedLine at h
  unfold processLine
  cases hb : l.blank with
  | true => simp [hb]
  | false =>
    cases hp : l.parse with
    | none => simp [hb, hp]
    | some e =>
      simp only [hb, hp, Bool.not_false, Bool.true_and] at h
      simp only [hb, hp, Bool.not_false, if_true, h, Bool.false_eq_true, if_false]
      by_cases hs : (e.type == some "summary" && jsTruthyStr e.summary) = true <;>
        simp [hs]

theorem streamFrom_zero (ls : List RawLine) : streamFrom ls 0 = ls := by
  cases ls <;> simp [streamFrom]

theorem streamFrom_cons_ge (l : RawLine) (ls : List RawLine) (off : Nat)
    (h : l.byteLen + 1 ≤ off) :
    streamFrom (l :: ls) off = streamFrom ls (off - (l.byteLen + 1)) := by
  cases off with
  | zero => omega
  | succ o =>
    simp only [streamFrom]
    rw [if_pos (by omega)]

/-- The scan loop's rows are exactly `scanRowsSpec` of the remaining lines. -/
theorem scanLines_messageIndexes (sid fp : String) :
    ∀ (ls : List RawLine) (st : ScanState),
      (scanLines sid fp ls st).messageIndexes =
        st.messageIndexes ++ scanRowsSpec sid fp st.byteOffset st.messageNumber ls := by
  intro ls
  induction ls with
  | nil => intro st; simp [scanLines, scanRowsSpec]
  | cons l ls ih =>
    intro st
    have hstep : scanLines sid fp (l :: ls) st = scanLines sid fp ls (processLine sid fp st l) :=
      rfl
    rw [hstep, ih]
    cases hI : isIndexedLine sid l with
    | true =>
      obtain ⟨h1, h2⟩ := processLine_indexed sid fp st l hI
      rw [h1, h2, processLine_byteOffset]
      simp only [scanRowsSpec, hI, if_true]
      simp
    | false =>
      obtain ⟨h1, h2⟩ := processLine_not_indexed sid fp st l hI
      rw [h1, h2, processLine_byteOffset]
      simp only [scanRowsSpec, hI, Bool.false_eq_true, if_false]

theorem scanRowsSpec_cons_pos {sid fp : String} {l : RawLine} (ls : List RawLine)
    (off n : Nat) (hI : isIndexedLine sid l = true) :
    scanRowsSpec sid fp off n (l :: ls) =
      rowOfLine sid fp (n + 1) (off, l) ::
        scanRowsSpec sid fp (off + l.byteLen + 1) (n + 1) ls := by
  simp [scanRowsSpec, hI]

theorem scanRowsSpec_cons_neg {sid fp : String} {l : RawLine} (ls : List RawLine)
    (off n : Nat) (hI : isIndexedLine sid l = false) :
    scanRowsSpec sid fp off n (l :: ls) =
      scanRowsSpec sid fp (off + l.byteLen + 1) n ls := by
  simp [scanRowsSpec, hI]

/-- Message numbers are consecutive from the starting count. -/
theorem scanRowsSpec_messageNumber (sid fp : String) :
    ∀ (ls : List RawLine) (off n j : Nat) (r : MessageIndexRow),
      (scanRowsSpec sid fp off n ls)[j]? = some r → r.messageNumber = n + j + 1 := by
  intro ls
  induction ls with
  | nil => intro off n j r h; simp [scanRowsSpec] at h
  | cons l ls ih =>
    intro off n j r h
    by_cases hI : isIndexedLine sid l = true
    · rw [scanRowsSpec_cons_pos ls off n hI] at h
      cases j with
      | zero =>
        rw [List.getElem?_cons_zero, Option.some.injEq] at h
        rw [← h]
        simp [rowOfLine]
      | succ j =>
        rw [List.getElem?_cons_succ] at h
        have := ih (off + l.byteLen + 1) (n + 1) j r h
        omega
    · rw [scanRowsSpec_cons_neg ls off n (by simpa using hI)] at h
      exact ih (off + l.byteLen + 1) n j r h

/-- Every produced row sits at or after the starting offset. -/
theorem scanRowsSpec_le_byteOffset (sid fp : String) :
    ∀ (ls : List RawLine) (off n : Nat) (r : MessageIndexRow),
      r ∈ scanRowsSpec sid fp off n ls → off ≤ r.byteOffset := by
  intro ls
  induction ls with
  | nil => intro off n r h; simp [scanRowsSpec] at h
  | cons l ls ih =>
    intro off n r h
    by_cases hI : isIndexedLine sid l = true
    · rw [scanRowsSpec_cons_pos ls off n hI, List.mem_cons] at h
      rcases h with h | h
      · rw [h]
        simp [rowOfLine]
      · have := ih (off + l.byteLen + 1) (n + 1) r h
        omega
    · rw [scanRowsSpec_cons_neg ls off n (by simpa using hI)] at h
      have := ih (off + l.byteLen + 1) n r h
      omega

/-- Consecutive rows: the line found at row `j`'s offset ends (newline
included) at or before row `j+1`'s offset. -/
theorem scanRowsSpec_chain (sid fp : String) :
    ∀ (ls : List RawLine) (off n j : Nat) (r r2 : MessageIndexRow),
      (scanRowsSpec sid fp off n ls)[j]? = some r →
      (scanRowsSpec sid fp off n ls)[j + 1]? = some r2 →
      ∃ l2 rest, streamFrom ls (r.byteOffset - off) = l2 :: rest ∧
        r.byteOffset + l2.byteLen + 1 ≤ r2.byteOffset := by
  intro ls
  induction ls with
  | nil => intro off n j r r2 h _; simp [scanRowsSpec] at h
  | cons l ls ih =>
    intro off n j r r2 h h2
    by_cases hI : isIndexedLine sid l = true
    · rw [scanRowsSpec_cons_pos ls off n hI] at h h2
      cases j with
      | zero =>
        rw [List.getElem?_cons_zero, Option.some.injEq] at h
        rw [List.getElem?_cons_succ] at h2
        have hroff : r.byteOffset = off := by
          rw [← h]
          simp [rowOfLine]
        have hmem : r2 ∈ scanRowsSpec sid fp (off + l.byteLen + 1) (n + 1) ls :=
          List.mem_iff_getElem?.mpr ⟨0, h2⟩
        have hle := scanRowsSpec_le_byteOffset sid fp ls (off + l.byteLen + 1) (n + 1) r2 hmem
        refine ⟨l, ls, ?_, by omega⟩
        rw [show r.byteOffset - off = 0 from by omega]
        exact streamFrom_zero (l :: ls)
      | succ j =>
        rw [List.getElem?_cons_succ] at h h2
        have hmem : r ∈ scanRowsSpec sid fp (off + l.byteLen + 1) (n + 1) ls :=
          List.mem_iff_getElem?.mpr ⟨j, h⟩
        have hoff := scanRowsSpec_le_byteOffset sid fp ls (off + l.byteLen + 1) (n + 1) r hmem
        obtain ⟨l2, rest, hs, hb⟩ := ih (off + l.byteLen + 1) (n + 1) j r r2 h h2
        refine ⟨l2, rest, ?_, hb⟩
        rw [streamFrom_cons_ge l ls _ (by omega),
          show r.byteOffset - off - (l.byteLen + 1) = r.byteOffset - (off + l.byteLen + 1) from
            by omega]
        exact hs
    · rw [scanRowsSpec_cons_neg ls off n (by simpa using hI)] at h h2
      have hmem : r ∈ scanRowsSpec sid fp (off + l.byteLen + 1) n ls :=
        List.mem_iff_getElem?.mpr ⟨j, h⟩
      have hoff := scanRowsSpec_le_byteOffset sid fp ls (off + l.byteLen + 1) n r hmem
      obtain ⟨l2, rest, hs, hb⟩ := ih (off + l.byteLen + 1) n j r r2 h h2
      refine ⟨l2, rest, ?_, hb⟩
      rw [streamFrom_cons_ge l ls _ (by omega),
        show r.byteOffset - off - (l.byteLen + 1) = r.byteOffset - (off + l.byteLen + 1) from
          by omega]
      exact hs

/-- Batch insertion of rows with fresh, pairwise-distinct keys appends them. -/
theorem foldl_insertMessageIndexRow_eq_append :
    ∀ (es tbl : List MessageIndexRow),
      (∀ r ∈ es, ∀ q ∈ tbl, ¬(q.sessionId = r.sessionId ∧ q.messageNumber = r.messageNumber)) →
      es.Pairwise
        (fun a b => ¬(a.sessionId = b.sessionId ∧ a.messageNumber = b.messageNumber)) →
      es.foldl insertMessageIndexRow tbl = tbl ++ es := by
  intro es
  induction es with
  | nil => intro tbl _ _; simp
  | cons e es ih =>
    intro tbl hdisj hnd
    rw [List.foldl_cons]
    have hins : insertMessageIndexRow tbl e = tbl ++ [e] := by
      unfold insertMessageIndexRow
      congr 1
      apply List.filter_eq_self.mpr
      intro q hq
      have hne := hdisj e (List.mem_cons_self e es) q hq
      simp only [Bool.not_eq_eq_eq_not, Bool.not_true, Bool.and_eq_false_iff, beq_eq_false_iff_ne,
        ne_eq]
      tauto
    rw [hins, ih (tbl ++ [e]) ?_ hnd.of_cons]
    · simp
    · intro r hr q hq
      rcases List.mem_append.mp hq with hq1 | hq1
      · exact hdisj r (List.mem_cons_of_mem e hr) q hq1
      · rw [List.mem_singleton] at hq1
        rw [hq1]
        exact (List.pairwise_cons.mp hnd).1 r hr

theorem scanRowsSpec_keys_pairwise (sid fp : String) (off n : Nat) (ls : List RawLine) :
    (scanRowsSpec sid fp off n ls).Pairwise
      (fun a b => ¬(a.sessionId = b.sessionId ∧ a.messageNumber = b.messageNumber)) := by
  rw [List.pairwise_iff_getElem]
  intro i j hi hj hij
  have h1 := scanRowsSpec_messageNumber sid fp ls off n i _
    (List.getElem?_eq_some_iff.mpr ⟨hi, rfl⟩)
  have h2 := scanRowsSpec_messageNumber sid fp ls off n j _
    (List.getElem?_eq_some_iff.mpr ⟨hj, rfl⟩)
  intro hcon
  omega

/-- Indexing a file into a fresh store stores exactly the scan's rows. -/
theorem fullPass_messageIndex (filePath projectName : String) (stats : Stats)
    (file : List RawLine) :
    (processSessionFile filePath projectName (some stats) file emptyDb).2.messageIndex =
      scanRowsSpec (sessionIdOfPath filePath) filePath 0 0 file := by
  have h0 : getFileState emptyDb filePath = none := rfl
  have hrows : (scanLines (sessionIdOfPath filePath) filePath
      (streamFrom file 0) (initScanState 0 0)).messageIndexes =
      scanRowsSpec (sessionIdOfPath filePath) filePath 0 0 file := by
    rw [streamFrom_zero]
    rw [scanLines_messageIndexes]
    simp [initScanState]
  simp only [processSessionFile, h0]
  simp only [incrementalEligible, Bool.false_eq_true, if_false]
  rw [updateFileState_messageIndex, upsertSession_messageIndex]
  simp only [apply_ite Db.messageIndex, insertUuidMappingBatch_messageIndex,
    insertMessageIndexBatch_messageIndex, ite_self]
  split
  · rw [hrows]
    refine foldl_insertMessageIndexRow_eq_append _ _
        (by simp [deleteSessionMessageIndexes, emptyDb])
        (scanRowsSpec_keys_pairwise _ _ _ _ _) |>.trans ?_
    simp [deleteSessionMessageIndexes, emptyDb]
  · rename_i hlen
    rw [hrows] at hlen
    simp only [gt_iff_lt, not_lt, Nat.le_zero, List.length_eq_zero] at hlen
    simp [deleteSessionMessageIndexes, emptyDb, hlen]

/-- **C2** (amended).  For a file indexed in a single full pass into a fresh
store: for consecutive stored messages `k` and `k+1`, the byte offset of
message `k` plus the byte length (newline included) of the line found at that
offset is *at most* the byte offset of message `k+1`; equality can fail when
skipped lines (blank, malformed, summary-only, or other-session) lie between
the two messages' lines. -/
theorem message_offsets_lower_bound
    (filePath projectName : String) (stats : Stats) (file : List RawLine) (k : Nat)
    (r r2 : MessageIndexRow)
    (hr : lookupMessageIndex (processSessionFile filePath projectName (some stats) file emptyDb).2
        (sessionIdOfPath filePath) k = some r)
    (hr2 : lookupMessageIndex (processSessionFile filePath projectName (some stats) file emptyDb).2
        (sessionIdOfPath filePath) (k + 1) = some r2) :
    ∃ l, lineAtOffset file r.byteOffset = some l ∧
      r.byteOffset + l.byteLen + 1 ≤ r2.byteOffset := by
  unfold lookupMessageIndex at hr hr2
  rw [fullPass_messageIndex] at hr hr2
  have hmem := List.mem_of_find?_eq_some hr
  have hpred := List.find?_some hr
  have hmem2 := List.mem_of_find?_eq_some hr2
  have hpred2 := List.find?_some hr2
  simp only [Bool.and_eq_true, beq_iff_eq] at hpred hpred2
  obtain ⟨i, hi⟩ := List.mem_iff_getElem?.mp hmem
  obtain ⟨i2, hi2⟩ := List.mem_iff_getElem?.mp hmem2
  have hn1 := scanRowsSpec_messageNumber (sessionIdOfPath filePath) filePath file 0 0 i r hi
  have hn2 := scanRowsSpec_messageNumber (sessionIdOfPath filePath) filePath file 0 0 i2 r2 hi2
  have hik : i2 = i + 1 := by omega
  subst hik
  obtain ⟨l2, rest, hs, hb⟩ :=
    scanRowsSpec_chain (sessionIdOfPath filePath) filePath file 0 0 i r r2 hi hi2
  refine ⟨l2, ?_, hb⟩
  rw [Nat.sub_zero] at hs
  unfold lineAtOffset
  rw [hs]
  rfl

def gapE1 : Entry := { sessionId := some "s", uuid := some "g1", timestamp := some 100 }

def gapE2 : Entry := { sessionId := some "s", uuid := some "g2", timestamp := some 200 }

/-- A file whose two well-formed lines for session `"s"` are separated by a
malformed 7-byte line. -/
def gapFile : List RawLine := [⟨5, false, some gapE1⟩, ⟨7, false, none⟩, ⟨5, false, some gapE2⟩]

def gapDb : Db := (processSessionFile "/p/s.jsonl" "p" (some ⟨19, 100⟩) gapFile emptyDb).2

/-- **C2 counterexample**: message 1 sits at offset 0, the line there is 5
bytes long (6 with the newline), yet message 2's stored offset is 14, not 6 —
the malformed line in between also advances the offset, so the claimed exact
equation fails. -/
theorem message_offsets_not_exact :
    (lookupMessageIndex gapDb "s" 1).map (fun r => r.byteOffset) = some 0 ∧
    (lineAtOffset gapFile 0).map (fun l => l.byteLen) = some 5 ∧
    (lookupMessageIndex gapDb "s" 2).map (fun r => r.byteOffset) = some 14 ∧
    (0 + 5 + 1 : Nat) ≠ 14 := by
  decide

/-- The first stored row of the `gapFile` scenario. -/
def gapRow1 : MessageIndexRow :=
  { sessionId := "s", messageNumber := 1, uuid := some "g1", type := none,
    timestamp := some 100, byteOffset := 0, filePath := "/p/s.jsonl" }

/-- The second stored row of the `gapFile` scenario. -/
def gapRow2 : MessageIndexRow :=
  { sessionId := "s", messageNumber := 2, uuid := some "g2", type := none,
    timestamp := some 200, byteOffset := 14, filePath := "/p/s.jsonl" }

/-- Witness for the **C2** theorem at the `gapFile` scenario. -/
theorem message_offsets_lower_bound_witness :
    ∃ l, lineAtOffset gapFile gapRow1.byteOffset = some l ∧
      gapRow1.byteOffset + l.byteLen + 1 ≤ gapRow2.byteOffset :=
  message_offsets_lower_bound "/p/s.jsonl" "p" ⟨19, 100⟩ gapFile 1 gapRow1 gapRow2
    (by decide) (by decide)

/-! ## Shared in-memory map model (`new Map()` semantics) -/

/-- JavaScript `s.startsWith(pref)`: `pref`'s character sequence is an initial
segment of `s`'s. -/
def jsStartsWith (s pref : String) : Bool :=
  pref.data.isPrefixOf s.data

/-- `Map.prototype.set`: an existing key is updated in place (keeping its
position in insertion order); a new key is appended at the end. -/
def mapSet {α : Type} (m : List (String × α)) (k : String) (v : α) : List (String × α) :=
  if m.any (fun kv => kv.1 == k) then m.map (fun kv => if kv.1 == k then (k, v) else kv)
  else m ++ [(k, v)]

/-- The filesystem as the caches see it: per path, the file's lines
(`none` when the file is missing or unreadable) and its `mtimeMs`
(`none` when `stat` throws). -/
structure FsModel where
  lines : String → Option (List RawLine)
  mtimeMs : String → Option Nat

namespace MessagesCache

/-- Maximum number of session lists to cache. -/
def MAX_CACHED_SESSIONS : Nat := 20

/-- Maximum number of full message bodies to cache. -/
def MAX_CACHED_MESSAGES : Nat := 100

/-- 60 seconds for the list cache. -/
def LIST_CACHE_TTL : Nat := 60000

/-- 30 minutes for individual messages. -/
def MESSAGE_CACHE_TTL : Nat := 1800000

def getCacheKey (projectName sessionId : String) : String :=
  projectName ++ ":" ++ sessionId

/-- `path.join(os.homedir(), ".claude", "projects", projectName, sessionId + ".jsonl")`. -/
def getSessionFilePath (projectName sessionId : String) : String :=
  "/home/user/.claude/projects/" ++ projectName ++ "/" ++ sessionId ++ ".jsonl"

/-- One element of a session-list cache's `list` array. -/
structure MessageListItem where
  number : Nat
  id : String
  timestamp : Option Nat
  type : Option String
deriving DecidableEq

/-- One session-list cache entry:
`{ list, offsets, filePath, mtime, timestamp }`. -/
structure ListCacheEntry where
  list : List MessageListItem
  offsets : List Nat
  filePath : Option String
  mtime : Option Nat
  timestamp : Nat
deriving DecidableEq

/-- One message-body cache entry: `{ message, accessTime }`. -/
structure BodyCacheEntry where
  message : Entry
  accessTime : Nat
deriving DecidableEq

/-- The module-level mutable state: the two `Map`s. -/
structure MsgCacheState where
  sessionListCaches : List (String × ListCacheEntry)
  messageBodyCache : List (String × BodyCacheEntry)
deriving DecidableEq

/-- `evictMessageCache()`: when over the limit, sort the entries by ascending
access time and delete the oldest keys beyond the limit. -/
def evictMessageCache (m : List (String × BodyCacheEntry)) : List (String × BodyCacheEntry) :=
  if m.length ≤ MAX_CACHED_MESSAGES then m
  else
    let entries := m.mergeSort (fun a b => decide (a.2.accessTime ≤ b.2.accessTime))
    let toRemove := entries.take (m.length - MAX_CACHED_MESSAGES)
    m.filter (fun kv => !(toRemove.any (fun r => r.1 == kv.1)))

/-- `evictSessionListCache()`: same discipline on the list cache, keyed by
build timestamp. -/
def evictSessionListCache (m : List (String × ListCacheEntry)) :
    List (String × ListCacheEntry) :=
  if m.length ≤ MAX_CACHED_SESSIONS then m
  else
    let entries := m.mergeSort (fun a b => decide (a.2.timestamp ≤ b.2.timestamp))
    let toRemove := entries.take (m.length - MAX_CACHED_SESSIONS)
    m.filter (fun kv => !(toRemove.any (fun r => r.1 == kv.1)))

/-- The collection loop of `buildMessageIndex`: each non-blank line that parses
and whose `sessionId` matches is kept together with its byte offset. -/
def collectSessionLines (sessionId : String) (f : List RawLine) : List (Nat × Entry) :=
  (withOffsets 0 f).filterMap (fun p =>
    if !p.2.blank then
      match p.2.parse with
      | some e => if e.sessionId == some sessionId then some (p.1, e) else none
      | none => none
    else none)

/-- The result record of `buildMessageIndex`. -/
structure BuiltIndex where
  list : List MessageListItem
  offsets : List Nat
  filePath : Option String
deriving DecidableEq

/-- `buildMessageIndex(projectName, sessionId)`: collect the session's entries
with byte offsets, sort them by timestamp (stably; a missing timestamp counts
as 0), and emit the 1-indexed `list` and the parallel `offsets` array. -/
def buildMessageIndex (fsm : FsModel) (projectName sessionId : String) : BuiltIndex :=
  let filePath := getSessionFilePath projectName sessionId
  match fsm.lines filePath with
  | none => { list := [], offsets := [], filePath := none }
  | some f =>
    let sorted := (collectSessionLines sessionId f).mergeSort
      (fun a b => decide (a.2.timestamp.getD 0 ≤ b.2.timestamp.getD 0))
    { list := sorted.mapIdx (fun i p =>
        { number := i + 1
          id := (jsStrOrNull p.2.uuid).getD
            ((jsStrOrNull p.2.id).getD ("msg_" ++ toString (i + 1)))
          timestamp := p.2.timestamp
          type := p.2.type })
      offsets := sorted.map Prod.fst
      filePath := some filePath }

/-- The refresh condition of `getSessionListCache`: force, absence, a changed
mtime (only when the current mtime is known), or TTL expiry. -/
def listCacheNeedsRefresh (forceRefresh : Bool) (cache : Option ListCacheEntry)
    (currentMtime : Option Nat) (now : Nat) : Bool :=
  forceRefresh ||
    match cache with
    | none => true
    | some c =>
        (currentMtime.isSome && c.mtime != currentMtime) ||
          decide (now - c.timestamp > LIST_CACHE_TTL)

/-- The refresh branch of `getSessionListCache`: rebuild the entry, store it,
evict over-limit list entries, and delete every cached message body whose key
is scoped to this session (prefix `projectName:sessionId:`). -/
def rebuildListCache (fsm : FsModel) (now : Nat) (st : MsgCacheState)
    (projectName sessionId : String) (currentMtime : Option Nat) :
    ListCacheEntry × MsgCacheState :=
  let cacheKey := getCacheKey projectName sessionId
  let b := buildMessageIndex fsm projectName sessionId
  let newEntry : ListCacheEntry :=
    { list := b.list, offsets := b.offsets, filePath := b.filePath,
      mtime := currentMtime, timestamp := now }
  let lists := evictSessionListCache (mapSet st.sessionListCaches cacheKey newEntry)
  let bodies := st.messageBodyCache.filter
    (fun kv => !(jsStartsWith kv.1 (cacheKey ++ ":")))
  (newEntry, { sessionListCaches := lists, messageBodyCache := bodies })

/-- `getSessionListCache(projectName, sessionId, forceRefresh)`. -/
def getSessionListCache (fsm : FsModel) (now : Nat) (st : MsgCacheState)
    (projectName sessionId : String) (forceRefresh : Bool) :
    ListCacheEntry × MsgCacheState :=
  let cacheKey := getCacheKey projectName sessionId
  let filePath := getSessionFilePath projectName sessionId
  let currentMtime := fsm.mtimeMs filePath
  let cache := lookupAssoc st.sessionListCaches cacheKey
  if listCacheNeedsRefresh forceRefresh cache currentMtime now then
    rebuildListCache fsm now st projectName sessionId currentMtime
  else
    match cache with
    | some c => (c, st)
    | none => rebuildListCache fsm now st projectName sessionId currentMtime

/-- `readLineAtOffset(filePath, offset)`: the first line of the stream opened
at the byte offset; `none` models both a stream error and the
offset-past-EOF case. -/
def readLineAtOffset (fsm : FsModel) (filePath : String) (offset : Nat) : Option RawLine :=
  match fsm.lines filePath with
  | none => none
  | some f => (streamFrom f offset).head?

/-- The cache-miss path of `getMessageByNumber`: resolve the byte offset
through the list cache, read one line, parse it, cache the body (then enforce
the LRU bound), and return it; every failure returns `none`. -/
def getMessageByNumberMiss (fsm : FsModel) (now : Nat) (st : MsgCacheState)
    (projectName sessionId : String) (messageNumber : Nat) :
    Option Entry × MsgCacheState :=
  let cacheKey := getCacheKey projectName sessionId
  let bodyCacheKey := cacheKey ++ ":" ++ toString messageNumber
  let listCache := (getSessionListCache fsm now st projectName sessionId false).1
  let st1 := (getSessionListCache fsm now st projectName sessionId false).2
  if messageNumber < 1 || listCache.list.length < messageNumber then (none, st1)
  else
    match listCache.filePath with
    | none => (none, st1)
    | some fp =>
      let offset := (listCache.offsets[messageNumber - 1]?).getD 0
      match readLineAtOffset fsm fp offset with
      | none => (none, st1)
      | some l =>
        match l.parse with
        | none => (none, st1)
        | some message =>
          let bodies := evictMessageCache
            (mapSet st1.messageBodyCache bodyCacheKey
              { message := message, accessTime := now })
          (some message, { st1 with messageBodyCache := bodies })

/-- `getMessageByNumber(projectName, sessionId, messageNumber)`: serve a fresh
cached body (bumping its access time), otherwise fall through to the miss
path. -/
def getMessageByNumber (fsm : FsModel) (now : Nat) (st : MsgCacheState)
    (projectName sessionId : String) (messageNumber : Nat) :
    Option Entry × MsgCacheState :=
  let cacheKey := getCacheKey projectName sessionId
  let bodyCacheKey := cacheKey ++ ":" ++ toString messageNumber
  match lookupAssoc st.messageBodyCache bodyCacheKey with
  | some cached =>
    if now - cached.accessTime < MESSAGE_CACHE_TTL then
      (some cached.message,
        { st with messageBodyCache :=
            mapSet st.messageBodyCache bodyCacheKey { cached with accessTime := now } })
    else getMessageByNumberMiss fsm now st projectName sessionId messageNumber
  | none => getMessageByNumberMiss fsm now st projectName sessionId messageNumber

end MessagesCache

namespace HistoryCache

/-- LRU bound of the per-session prompt cache. -/
def MAX_CACHED_SESSIONS : Nat := 20

/-- 60-second TTL of the per-session prompt cache. -/
def HISTORY_CACHE_TTL : Nat := 60000

/-- A parsed `history.jsonl` record (`JSON.parse` of one line); the
`pastedContents` payload is carried opaquely. -/
structure HistoryRaw where
  display : Option String := none
  timestamp : Option Nat := none
  sessionId : Option String := none
  project : Option String := none
  pastedContents : Option String := none
deriving DecidableEq

/-- One line of `history.jsonl`. -/
structure HistoryLine where
  blank : Bool
  parse : Option HistoryRaw
deriving DecidableEq

/-- The record `parseHistoryEntry` returns. -/
structure PromptEntry where
  prompt : String
  timestamp : Nat
  sessionId : String
  project : Option String
  pastedContents : Option String
deriving DecidableEq

/-- `parseHistoryEntry(line)`: `null` on parse failure or when any of
`display`, `timestamp`, `sessionId` is falsy; the `|| {}` default of
`pastedContents` is represented by `none`. -/
def parseHistoryEntry (l : HistoryLine) : Option PromptEntry :=
  match l.parse with
  | none => none
  | some e =>
    if !jsTruthyStr e.display || !jsTruthyNat e.timestamp || !jsTruthyStr e.sessionId then
      none
    else
      some { prompt := e.display.getD ""
             timestamp := e.timestamp.getD 0
             sessionId := e.sessionId.getD ""
             project := jsStrOrNull e.project
             pastedContents := e.pastedContents }

/-- The collection loop of `streamEntriesForSession`: non-blank lines that
parse as valid history entries and whose session id matches. -/
def collectSessionEntries (lines : List HistoryLine) (sessionId : String) :
    List PromptEntry :=
  lines.filterMap (fun l =>
    if !l.blank then
      match parseHistoryEntry l with
      | some e => if e.sessionId == sessionId then some e else none
      | none => none
    else none)

/-- `streamEntriesForSession(sessionId)`: linear scan of the whole log file
(`none` when it does not exist), collecting matching entries and sorting them
by ascending timestamp. -/
def streamEntriesForSession (file : Option (List HistoryLine)) (sessionId : String) :
    List PromptEntry :=
  match file with
  | none => []
  | some lines =>
    (collectSessionEntries lines sessionId).mergeSort
      (fun a b => decide (a.timestamp ≤ b.timestamp))

/-- One per-session cache row: `{ entries, timestamp }`. -/
structure CacheRow where
  entries : List PromptEntry
  timestamp : Nat
deriving DecidableEq

/-- The module state: the insertion-ordered LRU `Map` and the globally tracked
file mtime. -/
structure HistoryState where
  sessionCache : List (String × CacheRow)
  lastFileMtime : Option Nat
deriving DecidableEq

/-- `checkFileChanged()`: when the observed mtime differs from the tracked
one, clear the whole per-session cache and remember the new mtime. -/
def checkFileChanged (currentMtime : Option Nat) (st : HistoryState) :
    Bool × HistoryState :=
  if currentMtime != st.lastFileMtime then
    (true, { sessionCache := [], lastFileMtime := currentMtime })
  else (false, st)

/-- `touchSession(sessionId, data)`: delete-and-re-add to move the session to
the most-recently-used end, then evict from the front while over the bound. -/
def touchSession (st : HistoryState) (sessionId : String) (data : CacheRow) :
    HistoryState :=
  let m := st.sessionCache.filter (fun kv => kv.1 != sessionId) ++ [(sessionId, data)]
  { st with sessionCache := m.drop (m.length - MAX_CACHED_SESSIONS) }

/-- `getSessionPrompts(sessionId)`: invalidate on file change, serve a fresh
cached row (LRU-touching it), otherwise stream the file and cache the result. -/
def getSessionPrompts (file : Option (List HistoryLine)) (currentMtime : Option Nat)
    (now : Nat) (st : HistoryState) (sessionId : String) :
    List PromptEntry × HistoryState :=
  let st1 := (checkFileChanged currentMtime st).2
  match lookupAssoc st1.sessionCache sessionId with
  | some cached =>
    if now - cached.timestamp < HISTORY_CACHE_TTL then
      (cached.entries, touchSession st1 sessionId cached)
    else
      let entries := streamEntriesForSession file sessionId
      (entries, touchSession st1 sessionId { entries := entries, timestamp := now })
  | none =>
    let entries := streamEntriesForSession file sessionId
    (entries, touchSession st1 sessionId { entries := entries, timestamp := now })

end HistoryCache

namespace HistoryCache

/-- **C9**: `streamEntriesForSession` returns exactly the valid history-log
entries whose session id matches (a permutation of the in-order collection),
sorted ascending by timestamp; whenever the observed mtime differs from the
tracked one the entire per-session cache is cleared, so the call re-scans the
file; and whenever every cached row agrees with the current file, the call
returns the current file's entries (never stale data). -/
theorem getSessionPrompts_fresh_and_sorted
    (file : Option (List HistoryLine)) (currentMtime : Option Nat) (now : Nat)
    (st : HistoryState) (sessionId : String) :
    (∀ lines, file = some lines →
      (streamEntriesForSession file sessionId).Perm
        (collectSessionEntries lines sessionId)) ∧
    (streamEntriesForSession file sessionId).Sorted (fun a b => a.timestamp ≤ b.timestamp) ∧
    (currentMtime ≠ st.lastFileMtime →
      (getSessionPrompts file currentMtime now st sessionId).1 =
        streamEntriesForSession file sessionId) ∧
    ((∀ sid row, lookupAssoc st.sessionCache sid = some row →
        row.entries = streamEntriesForSession file sid) →
      (getSessionPrompts file currentMtime now st sessionId).1 =
        streamEntriesForSession file sessionId) := by
  refine ⟨?_, ?_, ?_, ?_⟩
  · intro lines hl
    rw [hl]
    exact List.mergeSort_perm _ _
  · cases file with
    | none => simp [streamEntriesForSession, List.Sorted]
    | some lines =>
      have hs : ((collectSessionEntries lines sessionId).mergeSort
          (fun a b => decide (a.timestamp ≤ b.timestamp))).Pairwise
            (fun a b => decide (a.timestamp ≤ b.timestamp) = true) :=
        List.sorted_mergeSort
          (fun a b c h1 h2 => by
            simp only [decide_eq_true_eq] at h1 h2 ⊢
            omega)
          (fun a b => by
            simp only [Bool.or_eq_true, decide_eq_true_eq]
            exact Nat.le_total _ _)
          (collectSessionEntries lines sessionId)
      exact hs.imp (fun h => by simpa using h)
  · intro hne
    have hb : (currentMtime != st.lastFileMtime) = true := by simpa using hne
    unfold getSessionPrompts checkFileChanged
    rw [if_pos hb]
    rfl
  · intro hco
    unfold getSessionPrompts checkFileChanged
    by_cases hb : (currentMtime != st.lastFileMtime) = true
    · rw [if_pos hb]
      rfl
    · rw [if_neg hb]
      cases hl : lookupAssoc st.sessionCache sessionId with
      | none => simp only [hl]
      | some cached =>
        by_cases ht : now - cached.timestamp < HISTORY_CACHE_TTL
        · simp only [hl, if_pos ht]
          exact hco sessionId cached hl
        · simp only [hl, if_neg ht]

/-- The spec's end-to-end history example: two prompts for session `"x"`
(t=100, t=200) and one for session `"y"` (t=150), listed out of order. -/
def exLineX1 : HistoryLine :=
  ⟨false, some { display := some "p1", timestamp := some 100, sessionId := some "x" }⟩

def exLineY : HistoryLine :=
  ⟨false, some { display := some "py", timestamp := some 150, sessionId := some "y" }⟩

def exLineX2 : HistoryLine :=
  ⟨false, some { display := some "p2", timestamp := some 200, sessionId := some "x" }⟩

def exFile : Option (List HistoryLine) := some [exLineX2, exLineX1, exLineY]

/-- A state whose tracked mtime (4) is stale relative to the file's mtime (5),
with a memoized empty row for `"x"`. -/
def exStaleState : HistoryState :=
  { sessionCache := [("x", { entries := [], timestamp := 0 })], lastFileMtime := some 4 }

/-- Witness for the **C9** theorem: with a changed mtime, the call re-scans
instead of returning the memoized row. -/
theorem getSessionPrompts_fresh_and_sorted_witness :
    (getSessionPrompts exFile (some 5) 1000 exStaleState "x").1 =
      streamEntriesForSession exFile "x" :=
  (getSessionPrompts_fresh_and_sorted exFile (some 5) 1000 exStaleState "x").2.2.1
    (by decide)

end HistoryCache

theorem list_isPrefixOf_append : ∀ (l t : List Char), l.isPrefixOf (l ++ t) = true := by
  intro l t
  induction l with
  | nil => simp [List.isPrefixOf]
  | cons c l ih => simp [List.isPrefixOf, ih]

theorem jsStartsWith_append (a b : String) : jsStartsWith (a ++ b) a = true := by
  unfold jsStartsWith
  rw [String.data_append]
  exact list_isPrefixOf_append a.data b.data

/-- A key on which the filter predicate is false cannot be found after filtering. -/
theorem lookupAssoc_filter_by_key {α : Type} (q : String → Bool) {k : String}
    (hk : q k = false) :
    ∀ (m : List (String × α)), lookupAssoc (m.filter (fun kv => q kv.1)) k = none := by
  intro m
  induction m with
  | nil => rfl
  | cons kv m ih =>
    by_cases hp : q kv.1 = true
    · rw [show List.filter (fun kv => q kv.1) (kv :: m) =
          kv :: List.filter (fun kv => q kv.1) m from by simp [List.filter_cons, hp]]
      unfold lookupAssoc at ih ⊢
      rw [List.find?_cons_of_neg]
      · exact ih
      · intro hbeq
        have hkk : kv.1 = k := by simpa using hbeq
        rw [hkk, hk] at hp
        exact Bool.false_ne_true hp
    · rw [show List.filter (fun kv => q kv.1) (kv :: m) =
          List.filter (fun kv => q kv.1) m from by simp [List.filter_cons, hp]]
      exact ih

namespace MessagesCache

/-- **C6**: whenever `getSessionListCache` rebuilds the entry for a session
(force refresh, absence, mtime change, or TTL expiry — exactly
`listCacheNeedsRefresh`), every message-body cache entry keyed to that session
(`projectName:sessionId:n` for any `n`) is deleted, so no stale body survives
for a subsequent `getMessageByNumber` to return. -/
theorem list_rebuild_purges_session_bodies
    (fsm : FsModel) (now : Nat) (st : MsgCacheState) (projectName sessionId : String)
    (forceRefresh : Bool)
    (h : listCacheNeedsRefresh forceRefresh
        (lookupAssoc st.sessionListCaches (getCacheKey projectName sessionId))
        (fsm.mtimeMs (getSessionFilePath projectName sessionId)) now = true) :
    ∀ n : Nat,
      lookupAssoc
        (getSessionListCache fsm now st projectName sessionId forceRefresh).2.messageBodyCache
        (getCacheKey projectName sessionId ++ ":" ++ toString n) = none := by
  intro n
  unfold getSessionListCache
  rw [if_pos h]
  show lookupAssoc (st.messageBodyCache.filter
      (fun kv => !(jsStartsWith kv.1 (getCacheKey projectName sessionId ++ ":")))) _ = none
  exact lookupAssoc_filter_by_key
    (fun key => !(jsStartsWith key (getCacheKey projectName sessionId ++ ":")))
    (by simp only []; rw [jsStartsWith_append]; rfl) st.messageBodyCache

/-- A filesystem with no session files. -/
def emptyFs : FsModel := ⟨fun _ => none, fun _ => none⟩

/-- A cache state holding one (stale) body entry for session `"s"` of project
`"p"` and no list entry, so the next list access must rebuild. -/
def staleBodyState : MsgCacheState :=
  { sessionListCaches := [], messageBodyCache := [("p:s:1", { message := {}, accessTime := 0 })] }

/-- Witness for the **C6** theorem: the rebuild triggered by the absent list
entry deletes the stale body entry `p:s:1`. -/
theorem list_rebuild_purges_session_bodies_witness :
    lookupAssoc (getSessionListCache emptyFs 0 staleBodyState "p" "s" false).2.messageBodyCache
      (getCacheKey "p" "s" ++ ":" ++ toString 1) = none :=
  list_rebuild_purges_session_bodies emptyFs 0 staleBodyState "p" "s" false (by decide) 1

end MessagesCache

theorem mem_mapSet {α : Type} {kv : String × α} {m : List (String × α)} {k : String} {v : α}
    (h : kv ∈ mapSet m k v) : kv = (k, v) ∨ kv ∈ m := by
  unfold mapSet at h
  split at h
  · rcases List.mem_map.mp h with ⟨kv0, hkv0, heq⟩
    by_cases hc : (kv0.1 == k) = true
    · left
      rw [← heq]
      simp [hc]
    · right
      rw [← heq]
      simp only [hc, Bool.false_eq_true, if_false]
      exact hkv0
  · rcases List.mem_append.mp h with h1 | h1
    · right
      exact h1
    · left
      simpa using h1

namespace MessagesCache

/-- The implicit list/offsets invariant of a session-list cache entry: the two
arrays have the same length and the item at index `j` carries message number
`j + 1` (so `offsets[n-1]` is defined for every `n` in `[1, list.length]`). -/
def alignedList (list : List MessageListItem) (offsets : List Nat) : Prop :=
  list.length = offsets.length ∧ ∀ j r, list[j]? = some r → r.number = j + 1

theorem mem_evictSessionListCache {kv : String × ListCacheEntry}
    {m : List (String × ListCacheEntry)} (h : kv ∈ evictSessionListCache m) : kv ∈ m := by
  unfold evictSessionListCache at h
  split at h
  · exact h
  · exact List.mem_of_mem_filter h

theorem listCacheNeedsRefresh_none (f : Bool) (mt : Option Nat) (now : Nat) :
    listCacheNeedsRefresh f none mt now = true := by
  simp [listCacheNeedsRefresh]

/-- **C10**: every index produced by `buildMessageIndex` keeps `list` and
`offsets` the same length with `list[i].number = i + 1`, and this invariant is
preserved by every `getSessionListCache` call: if all cached entries satisfy
it beforehand, all cached entries satisfy it afterwards (rebuilt entries are
fresh `buildMessageIndex` output, survivors are unchanged). -/
theorem buildMessageIndex_aligned_and_preserved
    (fsm : FsModel) (now : Nat) (st : MsgCacheState) (projectName sessionId : String)
    (forceRefresh : Bool) :
    alignedList (buildMessageIndex fsm projectName sessionId).list
      (buildMessageIndex fsm projectName sessionId).offsets ∧
    ((∀ kv ∈ st.sessionListCaches, alignedList kv.2.list kv.2.offsets) →
      ∀ kv ∈ (getSessionListCache fsm now st projectName sessionId
          forceRefresh).2.sessionListCaches,
        alignedList kv.2.list kv.2.offsets) := by
  have hb : alignedList (buildMessageIndex fsm projectName sessionId).list
      (buildMessageIndex fsm projectName sessionId).offsets := by
    unfold buildMessageIndex
    cases hf : fsm.lines (getSessionFilePath projectName sessionId) with
    | none =>
      simp only [hf]
      exact ⟨rfl, by intro j r h; simp at h⟩
    | some f =>
      simp only [hf]
      constructor
      · simp [List.length_mapIdx, List.length_map]
      · intro j r h
        rw [List.getElem?_eq_some_iff] at h
        obtain ⟨hj, hr⟩ := h
        rw [List.getElem_mapIdx] at hr
        rw [← hr]
  refine ⟨hb, ?_⟩
  intro hall kv hkv
  by_cases hR : listCacheNeedsRefresh forceRefresh
      (lookupAssoc st.sessionListCaches (getCacheKey projectName sessionId))
      (fsm.mtimeMs (getSessionFilePath projectName sessionId)) now = true
  · rw [show (getSessionListCache fsm now st projectName sessionId forceRefresh).2 =
        (rebuildListCache fsm now st projectName sessionId
          (fsm.mtimeMs (getSessionFilePath projectName sessionId))).2 from by
      unfold getSessionListCache
      rw [if_pos hR]] at hkv
    have hkv2 : kv ∈ evictSessionListCache (mapSet st.sessionListCaches
        (getCacheKey projectName sessionId)
        { list := (buildMessageIndex fsm projectName sessionId).list
          offsets := (buildMessageIndex fsm projectName sessionId).offsets
          filePath := (buildMessageIndex fsm projectName sessionId).filePath
          mtime := fsm.mtimeMs (getSessionFilePath projectName sessionId)
          timestamp := now }) := hkv
    rcases mem_mapSet (mem_evictSessionListCache hkv2) with h1 | h1
    · rw [h1]
      exact hb
    · exact hall kv h1
  · cases hc : lookupAssoc st.sessionListCaches (getCacheKey projectName sessionId) with
    | none =>
      exfalso
      rw [hc] at hR
      exact hR (listCacheNeedsRefresh_none _ _ _)
    | some c =>
      rw [show (getSessionListCache fsm now st projectName sessionId forceRefresh).2 = st from by
        unfold getSessionListCache
        rw [if_neg hR, hc]] at hkv
      exact hall kv hkv

/-- Witness for the **C10** theorem on a concrete state whose list cache is
empty (the preservation hypothesis holds vacuously). -/
theorem buildMessageIndex_aligned_and_preserved_witness :
    alignedList (buildMessageIndex emptyFs "p" "s").list
      (buildMessageIndex emptyFs "p" "s").offsets ∧
    (∀ kv ∈ (getSessionListCache emptyFs 0 staleBodyState "p" "s" false).2.sessionListCaches,
      alignedList kv.2.list kv.2.offsets) :=
  ⟨(buildMessageIndex_aligned_and_preserved emptyFs 0 staleBodyState "p" "s" false).1,
    (buildMessageIndex_aligned_and_preserved emptyFs 0 staleBodyState "p" "s" false).2
      (by intro kv h; exact absurd h (List.not_mem_nil kv))⟩

end MessagesCache

namespace MessagesCache

theorem evictMessageCache_spec (m : List (String × BodyCacheEntry))
    (hnd : (m.map Prod.fst).Nodup) :
    (evictMessageCache m).length ≤ MAX_CACHED_MESSAGES ∧
    (MAX_CACHED_MESSAGES < m.length →
      (evictMessageCache m).length = MAX_CACHED_MESSAGES) ∧
    (∀ kv ∈ evictMessageCache m, kv ∈ m) ∧
    (∀ kv ∈ m, kv ∉ evictMessageCache m →
      ∀ kv2 ∈ evictMessageCache m, kv.2.accessTime ≤ kv2.2.accessTime) := by
  by_cases hle : m.length ≤ MAX_CACHED_MESSAGES
  · rw [show evictMessageCache m = m from by unfold evictMessageCache; rw [if_pos hle]]
    exact ⟨hle, by omega, fun kv h => h, fun kv h1 h2 kv2 _ => absurd h1 h2⟩
  · have hgt : MAX_CACHED_MESSAGES < m.length := by omega
    have hres : evictMessageCache m = m.filter (fun kv =>
        !(((m.mergeSort (fun a b => decide (a.2.accessTime ≤ b.2.accessTime))).take
            (m.length - MAX_CACHED_MESSAGES)).any (fun r => r.1 == kv.1))) := by
      unfold evictMessageCache
      rw [if_neg hle]
    set le := fun (a b : String × BodyCacheEntry) => decide (a.2.accessTime ≤ b.2.accessTime)
      with hle_def
    set entries := m.mergeSort le with hentries
    set d := m.length - MAX_CACHED_MESSAGES with hd
    set toRemove := entries.take d with htoRemove
    have hperm : entries.Perm m := List.mergeSort_perm m le
    have hlenE : entries.length = m.length := hperm.length_eq
    have hndE : (entries.map Prod.fst).Nodup := ((hperm.map Prod.fst).nodup_iff).mpr hnd
    have hsplit : toRemove ++ entries.drop d = entries := List.take_append_drop d entries
    have hsort : entries.Pairwise (fun a b => le a b = true) :=
      List.sorted_mergeSort
        (fun a b c h1 h2 => by
          simp only [hle_def, decide_eq_true_eq] at h1 h2 ⊢
          omega)
        (fun a b => by
          simp only [hle_def, Bool.or_eq_true, decide_eq_true_eq]
          exact Nat.le_total _ _)
        m
    -- keys of toRemove and drop are disjoint
    have hdisj : ∀ r ∈ toRemove, ∀ s2 ∈ entries.drop d, r.1 ≠ s2.1 := by
      intro r hr s2 hs2 heq
      have hndA : ((toRemove ++ entries.drop d).map Prod.fst).Nodup := by
        rw [hsplit]
        exact hndE
      rw [List.map_append] at hndA
      have hdj := (List.nodup_append.mp hndA).2.2
      exact hdj (List.mem_map_of_mem Prod.fst hr)
        (by rw [heq]; exact List.mem_map_of_mem Prod.fst hs2)
    have hpRemove : ∀ kv ∈ toRemove, (!(toRemove.any (fun r => r.1 == kv.1))) = false := by
      intro kv hkv
      simp only [Bool.not_eq_false', List.any_eq_true]
      exact ⟨kv, hkv, by simp⟩
    have hpKeep : ∀ kv ∈ entries.drop d, (!(toRemove.any (fun r => r.1 == kv.1))) = true := by
      intro kv hkv
      simp only [Bool.not_eq_eq_eq_not, Bool.not_true, List.any_eq_false]
      intro r hr
      simpa using hdisj r hr kv hkv
    have hfilterE : entries.filter (fun kv => !(toRemove.any (fun r => r.1 == kv.1))) =
        entries.drop d := by
      conv_lhs => rw [← hsplit]
      rw [List.filter_append]
      rw [List.filter_eq_nil_iff.mpr (by intro kv hkv; simp [hpRemove kv hkv]),
        List.filter_eq_self.mpr hpKeep]
      rfl
    have hlenR : (evictMessageCache m).length = MAX_CACHED_MESSAGES := by
      rw [hres]
      have hp := (hperm.filter (fun kv => !(toRemove.any (fun r => r.1 == kv.1)))).symm
      rw [hp.length_eq, hfilterE, List.length_drop]
      omega
    refine ⟨by omega, fun _ => hlenR, ?_, ?_⟩
    · intro kv h
      rw [hres] at h
      exact List.mem_of_mem_filter h
    · intro kv hkvm hkvout kv2 hkv2
      -- kv ∈ toRemove
      have hkvE : kv ∈ entries := hperm.mem_iff.mpr hkvm
      have hkvR : kv ∈ toRemove := by
        rcases (List.mem_append.mp (by rw [hsplit]; exact hkvE)) with h1 | h1
        · exact h1
        · exfalso
          apply hkvout
          rw [hres]
          exact List.mem_filter.mpr ⟨hkvm, hpKeep kv h1⟩
      -- kv2 ∈ drop
      have hkv2E : kv2 ∈ entries := hperm.mem_iff.mpr ((by
        rw [hres] at hkv2
        exact List.mem_of_mem_filter hkv2 : kv2 ∈ m))
      have hkv2p : (!(toRemove.any (fun r => r.1 == kv2.1))) = true := by
        rw [hres] at hkv2
        exact (List.mem_filter.mp hkv2).2
      have hkv2D : kv2 ∈ entries.drop d := by
        rcases (List.mem_append.mp (by rw [hsplit]; exact hkv2E)) with h1 | h1
        · exfalso
          rw [hpRemove kv2 h1] at hkv2p
          exact Bool.false_ne_true hkv2p
        · exact h1
      have hsort2 : List.Pairwise (fun a b => le a b = true) (toRemove ++ entries.drop d) := by
        rw [hsplit]
        exact hsort
      have hle12 := (List.pairwise_append.mp hsort2).2.2 kv hkvR kv2 hkv2D
      simpa [hle_def] using hle12

end MessagesCache

namespace MessagesCacheAux

theorem lookupAssoc_any {α : Type} {m : List (String × α)} {k : String} {v : α}
    (h : lookupAssoc m k = some v) : (m.any (fun kv => kv.1 == k)) = true := by
  unfold lookupAssoc at h
  cases hf : m.find? (fun kv => kv.1 == k) with
  | none => rw [hf] at h; simp at h
  | some kv =>
    rw [List.any_eq_true]
    exact ⟨kv, List.mem_of_find?_eq_some hf, by simpa using List.find?_some hf⟩

theorem mapSet_length_of_present {α : Type} {m : List (String × α)} {k : String} (v : α)
    (h : (m.any (fun kv => kv.1 == k)) = true) : (mapSet m k v).length = m.length := by
  unfold mapSet
  rw [if_pos h, List.length_map]

theorem mapSet_map_fst_present {α : Type} {m : List (String × α)} {k : String} (v : α)
    (h : (m.any (fun kv => kv.1 == k)) = true) :
    (mapSet m k v).map Prod.fst = m.map Prod.fst := by
  unfold mapSet
  rw [if_pos h, List.map_map]
  apply List.map_congr_left
  intro kv _
  by_cases hc : (kv.1 == k) = true
  · have : kv.1 = k := by simpa using hc
    simp [hc, this]
  · simp only [Function.comp_apply]
    rw [show (kv.1 == k) = false from by simpa using hc]
    simp

theorem mapSet_map_fst_absent {α : Type} {m : List (String × α)} {k : String} (v : α)
    (h : (m.any (fun kv => kv.1 == k)) = false) :
    (mapSet m k v).map Prod.fst = m.map Prod.fst ++ [k] := by
  unfold mapSet
  rw [if_neg (by simp [h]), List.map_append]
  rfl

theorem mapSet_keys_nodup {α : Type} {m : List (String × α)} {k : String} (v : α)
    (hnd : (m.map Prod.fst).Nodup) : ((mapSet m k v).map Prod.fst).Nodup := by
  cases h : (m.any (fun kv => kv.1 == k)) with
  | true => rw [mapSet_map_fst_present v h]; exact hnd
  | false =>
    rw [mapSet_map_fst_absent v h]
    rw [List.nodup_append]
    refine ⟨hnd, List.nodup_singleton k, ?_⟩
    intro a ha hb
    rw [List.mem_singleton] at hb
    subst hb
    rcases List.mem_map.mp ha with ⟨kv, hkv, hfst⟩
    rw [List.any_eq_false] at h
    have := h kv hkv
    rw [hfst] at this
    simp at this

theorem filter_keys_nodup {α : Type} {m : List (String × α)} (p : String × α → Bool)
    (hnd : (m.map Prod.fst).Nodup) : ((m.filter p).map Prod.fst).Nodup :=
  ((List.filter_sublist m).map Prod.fst).nodup hnd

end MessagesCacheAux

namespace MessagesCache

open MessagesCacheAux

theorem getSessionListCache_bodies (fsm : FsModel) (now : Nat) (st : MsgCacheState)
    (p s : String) (f : Bool) :
    (getSessionListCache fsm now st p s f).2.messageBodyCache = st.messageBodyCache ∨
    (getSessionListCache fsm now st p s f).2.messageBodyCache =
      st.messageBodyCache.filter
        (fun kv => !(jsStartsWith kv.1 (getCacheKey p s ++ ":"))) := by
  unfold getSessionListCache
  by_cases hR : listCacheNeedsRefresh f
      (lookupAssoc st.sessionListCaches (getCacheKey p s))
      (fsm.mtimeMs (getSessionFilePath p s)) now = true
  · rw [if_pos hR]
    right
    rfl
  · rw [if_neg hR]
    cases hc : lookupAssoc st.sessionListCaches (getCacheKey p s) with
    | none =>
      right
      simp only [hc]
      rfl
    | some c =>
      left
      simp only [hc]

theorem getMessageByNumberMiss_bodies (fsm : FsModel) (now : Nat) (st : MsgCacheState)
    (p s : String) (n : Nat) :
    (getMessageByNumberMiss fsm now st p s n).2.messageBodyCache =
      (getSessionListCache fsm now st p s false).2.messageBodyCache ∨
    ∃ e : Entry, (getMessageByNumberMiss fsm now st p s n).2.messageBodyCache =
      evictMessageCache (mapSet (getSessionListCache fsm now st p s false).2.messageBodyCache
        (getCacheKey p s ++ ":" ++ toString n) { message := e, accessTime := now }) := by
  unfold getMessageByNumberMiss
  dsimp only
  split
  · left
    rfl
  · split
    · left
      rfl
    · split
      · left
        rfl
      · split
        · left
          rfl
        · right
          exact ⟨_, rfl⟩

theorem getMessageByNumber_bounded (fsm : FsModel) (now : Nat) (st : MsgCacheState)
    (p s : String) (n : Nat)
    (hnd : (st.messageBodyCache.map Prod.fst).Nodup)
    (hlen : st.messageBodyCache.length ≤ MAX_CACHED_MESSAGES) :
    (getMessageByNumber fsm now st p s n).2.messageBodyCache.length ≤ MAX_CACHED_MESSAGES := by
  have hmiss : (getMessageByNumberMiss fsm now st p s n).2.messageBodyCache.length ≤
      MAX_CACHED_MESSAGES := by
    have hlc := getSessionListCache_bodies fsm now st p s false
    have hlen1 : (getSessionListCache fsm now st p s false).2.messageBodyCache.length ≤
        MAX_CACHED_MESSAGES := by
      rcases hlc with h | h <;> rw [h]
      · exact hlen
      · exact le_trans (List.length_filter_le _ _) hlen
    have hnd1 : ((getSessionListCache fsm now st p s false).2.messageBodyCache.map
        Prod.fst).Nodup := by
      rcases hlc with h | h <;> rw [h]
      · exact hnd
      · exact filter_keys_nodup _ hnd
    rcases getMessageByNumberMiss_bodies fsm now st p s n with h | ⟨e, h⟩
    · rw [h]
      exact hlen1
    · rw [h]
      exact (evictMessageCache_spec _ (mapSet_keys_nodup _ hnd1)).1
  unfold getMessageByNumber
  cases hc : lookupAssoc st.messageBodyCache (getCacheKey p s ++ ":" ++ toString n) with
  | some cached =>
    by_cases ht : now - cached.accessTime < MESSAGE_CACHE_TTL
    · simp only [hc, if_pos ht]
      show (mapSet st.messageBodyCache _ _).length ≤ _
      rw [mapSet_length_of_present _ (lookupAssoc_any hc)]
      exact hlen
    · simp only [hc, if_neg ht]
      exact hmiss
  | none =>
    simp only [hc]
    exact hmiss

end MessagesCache

namespace MessagesCache

/-- **C8**: when no fresh cached body exists, `getMessageByNumber` returns
`null` (modelled `none`) whenever the number is outside `[1, listLength]` or
the list cache has no file path; otherwise it reads the single line at the
offset resolved from the list cache's offset table, and when that line parses
it returns the parsed message and writes it to the body cache (then enforces
the LRU bound); a failed read or parse also yields `none`.  The model is a
total function, so no case throws past the component boundary. -/
theorem getMessageByNumber_contract
    (fsm : FsModel) (now : Nat) (st : MsgCacheState) (p s : String) (n : Nat)
    (hmiss : ∀ cached, lookupAssoc st.messageBodyCache
        (getCacheKey p s ++ ":" ++ toString n) = some cached →
      ¬(now - cached.accessTime < MESSAGE_CACHE_TTL)) :
    ((n < 1 ∨ (getSessionListCache fsm now st p s false).1.list.length < n) →
      (getMessageByNumber fsm now st p s n).1 = none) ∧
    ((getSessionListCache fsm now st p s false).1.filePath = none →
      (getMessageByNumber fsm now st p s n).1 = none) ∧
    (∀ fp off l e, 1 ≤ n → n ≤ (getSessionListCache fsm now st p s false).1.list.length →
      (getSessionListCache fsm now st p s false).1.filePath = some fp →
      ((getSessionListCache fsm now st p s false).1.offsets[n - 1]?).getD 0 = off →
      readLineAtOffset fsm fp off = some l →
      l.parse = some e →
      (getMessageByNumber fsm now st p s n).1 = some e ∧
      (getMessageByNumber fsm now st p s n).2.messageBodyCache =
        evictMessageCache (mapSet (getSessionListCache fsm now st p s false).2.messageBodyCache
          (getCacheKey p s ++ ":" ++ toString n) { message := e, accessTime := now })) ∧
    (∀ fp off, 1 ≤ n → n ≤ (getSessionListCache fsm now st p s false).1.list.length →
      (getSessionListCache fsm now st p s false).1.filePath = some fp →
      ((getSessionListCache fsm now st p s false).1.offsets[n - 1]?).getD 0 = off →
      (readLineAtOffset fsm fp off = none ∨
        (∃ l, readLineAtOffset fsm fp off = some l ∧ l.parse = none)) →
      (getMessageByNumber fsm now st p s n).1 = none) := by
  have hEq : getMessageByNumber fsm now st p s n = getMessageByNumberMiss fsm now st p s n := by
    unfold getMessageByNumber
    cases hc : lookupAssoc st.messageBodyCache (getCacheKey p s ++ ":" ++ toString n) with
    | none => simp only [hc]
    | some cached =>
      simp only [hc]
      rw [if_neg (hmiss cached hc)]
  rw [hEq]
  unfold getMessageByNumberMiss
  dsimp only
  refine ⟨?_, ?_, ?_, ?_⟩
  · intro hout
    rw [if_pos (by rcases hout with h | h <;> simp [h])]
  · intro hfp
    by_cases hcond : (decide (n < 1) ||
        decide ((getSessionListCache fsm now st p s false).1.list.length < n)) = true
    · rw [if_pos hcond]
    · rw [if_neg hcond]
      simp only [hfp]
  · intro fp off l e h1 h2 hfp hoff hread hparse
    rw [if_neg (by simp; omega)]
    simp only [hfp, hoff, hread, hparse]
    exact ⟨trivial, trivial⟩
  · intro fp off h1 h2 hfp hoff hfail
    rw [if_neg (by simp; omega)]
    simp only [hfp, hoff]
    rcases hfail with h | ⟨l, hread, hparse⟩
    · simp only [h]
    · simp only [hread, hparse]

end MessagesCache

namespace MessagesCache

open MessagesCacheAux

/-- **C7**: (a) `evictMessageCache` leaves the body cache within the
`MAX_CACHED_MESSAGES = 100` bound (exactly at the bound when it was over it),
removes only existing entries, and every evicted entry's access time is at
most every surviving entry's access time (strict LRU, oldest first); and
(b) after every completed `getMessageByNumber` call, a body cache with unique
keys that was within the bound stays within the bound. -/
theorem evictMessageCache_lru :
    (∀ (m : List (String × BodyCacheEntry)), (m.map Prod.fst).Nodup →
      (evictMessageCache m).length ≤ MAX_CACHED_MESSAGES ∧
      (MAX_CACHED_MESSAGES < m.length →
        (evictMessageCache m).length = MAX_CACHED_MESSAGES) ∧
      (∀ kv ∈ evictMessageCache m, kv ∈ m) ∧
      (∀ kv ∈ m, kv ∉ evictMessageCache m →
        ∀ kv2 ∈ evictMessageCache m, kv.2.accessTime ≤ kv2.2.accessTime)) ∧
    (∀ (fsm : FsModel) (now : Nat) (st : MsgCacheState) (p s : String) (n : Nat),
      (st.messageBodyCache.map Prod.fst).Nodup →
      st.messageBodyCache.length ≤ MAX_CACHED_MESSAGES →
      (getMessageByNumber fsm now st p s n).2.messageBodyCache.length ≤
        MAX_CACHED_MESSAGES) :=
  ⟨evictMessageCache_spec, getMessageByNumber_bounded⟩

/-- Witness for the **C7** theorem at a concrete two-entry cache and a
concrete message access. -/
theorem evictMessageCache_lru_witness :
    (evictMessageCache [("a", { message := {}, accessTime := 5 }),
        ("b", { message := {}, accessTime := 3 })]).length ≤ MAX_CACHED_MESSAGES ∧
    (getMessageByNumber emptyFs 0 staleBodyState "p" "s" 1).2.messageBodyCache.length ≤
      MAX_CACHED_MESSAGES :=
  ⟨(evictMessageCache_lru.1 _ (by decide)).1,
    evictMessageCache_lru.2 emptyFs 0 staleBodyState "p" "s" 1 (by decide) (by decide)⟩

end MessagesCache

namespace MessagesCache

/-- A completely empty cache state. -/
def emptyMsgState : MsgCacheState := { sessionListCaches := [], messageBodyCache := [] }

/-- Witness for the **C8** theorem: the spec's example query for an
out-of-range message number 5 (the session has no messages on an empty
filesystem) returns the not-found signal. -/
theorem getMessageByNumber_contract_witness :
    (getMessageByNumber emptyFs 0 emptyMsgState "proj" "abc" 5).1 = none :=
  (getMessageByNumber_contract emptyFs 0 emptyMsgState "proj" "abc" 5
      (by intro cached h; simp [emptyMsgState, lookupAssoc] at h)).1
    (Or.inr (by decide))

end MessagesCache
